import Mathlib

/-!
Verification of the Mol-MiDial MIDI dispatch layer.

This file gives a shallow embedding, in Lean 4, of the behavioural core of the
repository: the `MIDIController` mapping table, value conversion, throttled
dispatch and listener loop from `molmidial/midi/controller.py`, and the JSON
logging path from `molmidial/logger.py`.  Python float arithmetic is modelled
over the rationals; Python exceptions are modelled with `Except` (a `try/except`
block becomes an explicit match on the possibly-failing call); Python dicts
(which preserve insertion order) are modelled as association lists with
overwrite-in-place update.  Registered callbacks are modelled by a behaviour
function `hexn : String → ℚ → Option String` giving, for a target function name
and the value passed, the exception message the callback raises, or `none` when
it returns normally.
-/

set_option autoImplicit false

namespace MolMiDial

/-- Lookup of a key in an insertion-ordered association list (a Python dict read:
`d[k]` or `k in d`). -/
def alistFind {α : Type} (k : String) : List (String × α) → Option α
  | [] => none
  | (k₀, v₀) :: rest => if k₀ = k then some v₀ else alistFind k rest

/-- Write to an insertion-ordered association list (a Python dict write `d[k] = v`):
overwrite in place when the key exists, append otherwise. -/
def alistSet {α : Type} (k : String) (v : α) : List (String × α) → List (String × α)
  | [] => [(k, v)]
  | (k₀, v₀) :: rest => if k₀ = k then (k, v) :: rest else (k₀, v₀) :: alistSet k v rest

/-- Types of MIDI controls available (enum `MIDIControlType` in controller.py). -/
inductive MIDIControlType where
  | dial
  | slider
  | button
  | knob
  | fader
  deriving DecidableEq

/-- Configuration for a MIDI control mapping (dataclass `MIDIMapping` in
controller.py).  Float fields are modelled as rationals. -/
structure MIDIMapping where
  control_number : Int
  channel : Int
  control_type : MIDIControlType
  target_function : String
  min_value : ℚ := 0
  max_value : ℚ := 127
  target_min : ℚ := 0
  target_max : ℚ := 1
  enabled : Bool := true
  description : String := ""
  deriving DecidableEq

/-- The default throttle interval `_throttle_interval = 0.05` set in
`MIDIController.__init__`. -/
def default_throttle_interval : ℚ := 1/20

/-- The initial `_expensive_controls` override dictionary from
`MIDIController.__init__`. -/
def initial_expensive_controls : List (String × ℚ) :=
  [("connolly_transparency", 1/5), ("connolly_probe_radius", 1/5),
   ("isosurface_level", 1/10)]

/-- The mutable state of a `MIDIController` relevant to dispatch: the mapping
table, the set of registered handler names (`control_handlers` keys), the
throttle bookkeeping (`_last_update_times`, `_last_values`), the throttle
configuration (`_throttle_interval`, `_expensive_controls`) and the running
flag. -/
structure CState where
  mappings : List (String × MIDIMapping)
  control_handlers : List String
  last_update_times : List (String × ℚ)
  throttle_interval : ℚ
  expensive_controls : List (String × ℚ)
  last_values : List (String × ℚ)
  is_running : Bool
  deriving DecidableEq

/-- A record of one call to a registered handler: the target function name, the
value passed, and whether the callback returned normally (`ok = true`) or
raised (`ok = false`). -/
structure Invocation where
  fn : String
  value : ℚ
  ok : Bool
  deriving DecidableEq

/-- `MIDIController._convert_midi_value`: normalize the MIDI value by the fixed
divisor 127 and map it into the target range of the mapping. -/
def convert_midi_value (midi_value : Int) (mapping : MIDIMapping) : ℚ :=
  let normalized : ℚ := (midi_value : ℚ) / 127
  mapping.target_min + normalized * (mapping.target_max - mapping.target_min)

/-- The noise floor from `_call_control_handler`:
`max(0.001, abs(value) * 0.001)`. -/
def noise_floor (value : ℚ) : ℚ := max (1/1000) (|value| * (1/1000))

/-- The effective throttle interval for a target function:
`self._expensive_controls.get(function_name, self._throttle_interval)`. -/
def throttle_for (s : CState) (fn : String) : ℚ :=
  (alistFind fn s.expensive_controls).getD s.throttle_interval

/-- The state after a successful dispatch: the two writes
`self._last_update_times[function_name] = current_time` and
`self._last_values[function_name] = value` performed after the handler call
returns. -/
def record_dispatch (s : CState) (fn : String) (value t : ℚ) : CState :=
  { s with
      last_update_times := alistSet fn t s.last_update_times,
      last_values := alistSet fn value s.last_values }

/-- The `try: self.control_handlers[function_name](value) ... except` tail of
`_call_control_handler`: on normal return, record the dispatch time and the
delivered value; on exception, log and leave the state untouched. -/
def attempt_handler (hexn : String → ℚ → Option String) (s : CState) (fn : String)
    (value t : ℚ) : CState × Option Invocation :=
  match hexn fn value with
  | none => (record_dispatch s fn value t, some ⟨fn, value, true⟩)
  | some _ => (s, some ⟨fn, value, false⟩)

/-- The noise-floor gate of `_call_control_handler` followed by the handler
call: skip the dispatch when the change from the last delivered value is below
`max(0.001, abs(value) * 0.001)`. -/
def noise_gate_call (hexn : String → ℚ → Option String) (s : CState) (fn : String)
    (value t : ℚ) : CState × Option Invocation :=
  match alistFind fn s.last_values with
  | some last_value =>
      if |value - last_value| < noise_floor value then (s, none)
      else attempt_handler hexn s fn value t
  | none => attempt_handler hexn s fn value t

/-- `MIDIController._call_control_handler`: drop when no handler is registered,
then apply the throttle gate, then the noise-floor gate, then call the handler
with the exception caught at this boundary.  The `Except` result reflects that
a Python method can raise; every path of this method returns normally. -/
def call_control_handler (hexn : String → ℚ → Option String) (s : CState)
    (fn : String) (value t : ℚ) : Except String (CState × Option Invocation) :=
  if fn ∈ s.control_handlers then
    match alistFind fn s.last_update_times with
    | some tlast =>
        if t - tlast < throttle_for s fn then Except.ok (s, none)
        else Except.ok (noise_gate_call hexn s fn value t)
    | none => Except.ok (noise_gate_call hexn s fn value t)
  else Except.ok (s, none)

/-- A MIDI control-change message as read in `_handle_control_change`:
`msg.control`, `msg.channel`, `msg.value`. -/
structure ControlChangeMsg where
  control : Int
  channel : Int
  value : Int
  deriving DecidableEq

/-- The mapping search loop of `_handle_control_change`: iterate the mapping
table in insertion order and return the first enabled mapping whose control
number and channel match. -/
def find_enabled_mapping (ctrl ch : Int) :
    List (String × MIDIMapping) → Option (String × MIDIMapping)
  | [] => none
  | (name, m) :: rest =>
      if m.control_number = ctrl ∧ m.channel = ch ∧ m.enabled = true then some (name, m)
      else find_enabled_mapping ctrl ch rest

/-- `MIDIController._handle_control_change`: find the first enabled matching
mapping, convert the raw value into its target range, and dispatch to its
target function; the loop breaks after the first match. -/
def handle_control_change (hexn : String → ℚ → Option String) (s : CState)
    (msg : ControlChangeMsg) (t : ℚ) : Except String (CState × Option Invocation) :=
  match find_enabled_mapping msg.control msg.channel s.mappings with
  | none => Except.ok (s, none)
  | some (_, m) =>
      call_control_handler hexn s m.target_function (convert_midi_value msg.value m) t

/-- The default zoom mapping built in `_setup_default_mappings`, with the range
of `DialSettings.ZOOM` (min -320, max 100); used as a concrete test mapping. -/
def zoom_mapping : MIDIMapping :=
  { control_number := 1, channel := 0, control_type := .knob,
    target_function := "camera_zoom", target_min := -320, target_max := 100,
    description := "Camera Zoom" }

/-- A concrete controller state used in witnesses: one registered handler for
`camera_zoom`, a last delivered value of 1/2, and a dispatch recorded at time 0. -/
def w3_state : CState :=
  { mappings := [("zoom", zoom_mapping)], control_handlers := ["camera_zoom"],
    last_update_times := [("camera_zoom", 0)],
    throttle_interval := default_throttle_interval,
    expensive_controls := initial_expensive_controls,
    last_values := [("camera_zoom", 1/2)], is_running := true }

/-- Two mappings sharing control number 1 and channel 0 but with different
target functions, the first one targeting f1. -/
def dup_m1 : MIDIMapping :=
  { control_number := 1, channel := 0, control_type := .knob,
    target_function := "f1", target_min := 0, target_max := 1 }

/-- The second mapping of the duplicate pair, targeting f2. -/
def dup_m2 : MIDIMapping :=
  { control_number := 1, channel := 0, control_type := .knob,
    target_function := "f2", target_min := 0, target_max := 10 }

/-- A state whose table holds two enabled mappings on the same (1, 0) pair,
with handlers registered for both target functions and fresh throttle state. -/
def dup_state : CState :=
  { mappings := [("a", dup_m1), ("b", dup_m2)], control_handlers := ["f1", "f2"],
    last_update_times := [], throttle_interval := default_throttle_interval,
    expensive_controls := [], last_values := [], is_running := true }

/-- Whether a dispatch outcome is a successful delivery: the handler was called
and returned normally. -/
def delivered : Option Invocation → Bool
  | some inv => inv.ok
  | none => false

/-- A handler behaviour in which the f1 callback always raises. -/
def raising_hexn : String → ℚ → Option String := fun _ _ => some "boom"

/-- A message from the transport stream, classified as in `_midi_loop`:
control-change messages are dispatched; note_on and note_off are accepted but
their handlers have pass bodies; any other message kind is ignored. -/
inductive MidiMsg where
  | control_change (msg : ControlChangeMsg)
  | note_on
  | note_off
  | other
  deriving DecidableEq

/-- One step observed by the listener loop: a message arriving at time t, an
external `stop_listening` call clearing the running flag between messages, or
the transport stream raising an exception. -/
inductive LoopItem where
  | msg (m : MidiMsg) (t : ℚ)
  | stop_flag
  | stream_raise (e : String)
  deriving DecidableEq

/-- Whether a loop item is the stream raising. -/
def LoopItem.isRaise : LoopItem → Bool
  | .stream_raise _ => true
  | _ => false

/-- The per-message body of `_midi_loop`: control-change messages go to
`_handle_control_change`; `_handle_note_on` and `_handle_note_off` have pass
bodies, and other kinds fall through the if/elif chain. -/
def handle_message (hexn : String → ℚ → Option String) (s : CState) (m : MidiMsg)
    (t : ℚ) : Except String (CState × List Invocation) :=
  match m with
  | .control_change msg =>
      match handle_control_change hexn s msg t with
      | Except.ok (s', i) => Except.ok (s', i.toList)
      | Except.error e => Except.error e
  | .note_on => Except.ok (s, [])
  | .note_off => Except.ok (s, [])
  | .other => Except.ok (s, [])

/-- The `for msg in self.midi_input` loop of `_midi_loop`: before each message
the stop flag is checked (`if not self.is_running: break`); an exception from
the body or from the stream escapes the loop, returned here together with the
state at that point. -/
def midi_loop_body (hexn : String → ℚ → Option String) (s : CState) :
    List LoopItem → CState × List Invocation × Option String
  | [] => (s, [], none)
  | .stop_flag :: rest => midi_loop_body hexn { s with is_running := false } rest
  | .stream_raise e :: _ => (s, [], some e)
  | .msg m t :: rest =>
      if s.is_running then
        match handle_message hexn s m t with
        | Except.ok (s', invs) =>
            let r := midi_loop_body hexn s' rest
            (r.1, invs ++ r.2.1, r.2.2)
        | Except.error e => (s, [], some e)
      else (s, [], none)

/-- `MIDIController._midi_loop`: run the loop over the stream, catch any
exception (`except Exception as e:` logs it), and in the `finally` block clear
the running flag. -/
def midi_loop (hexn : String → ℚ → Option String) (s : CState)
    (items : List LoopItem) : CState × List Invocation :=
  let r := midi_loop_body hexn s items
  ({ r.1 with is_running := false }, r.2.1)

/-- `MIDIController.add_mapping`: insert or overwrite a mapping by name. -/
def add_mapping (s : CState) (name : String) (m : MIDIMapping) : CState :=
  { s with mappings := alistSet name m s.mappings }

/-- `MIDIController.remove_mapping`: delete a mapping by name when present. -/
def remove_mapping (s : CState) (name : String) : CState :=
  { s with mappings := s.mappings.filter (fun p => p.1 != name) }

/-- `MIDIController.set_control_handler`: register the single handler for a
target name (last registration wins); only membership of the name is
modelled, the callable itself lives in the behaviour function. -/
def set_control_handler (s : CState) (fn : String) : CState :=
  { s with control_handlers :=
      if fn ∈ s.control_handlers then s.control_handlers
      else s.control_handlers ++ [fn] }

/-- `MIDIController.set_throttle_interval`: write the per-function override. -/
def set_throttle_interval (s : CState) (control_name : String) (interval : ℚ) : CState :=
  { s with expensive_controls := alistSet control_name interval s.expensive_controls }

/-- `MIDIController.clear_throttle_state`: clear both throttle maps. -/
def clear_throttle_state (s : CState) : CState :=
  { s with last_update_times := [], last_values := [] }

/-- `MIDIController.enable_mapping`: when the name is present, set the enabled
flag of that mapping in place. -/
def enable_mapping (s : CState) (name : String) : CState :=
  match alistFind name s.mappings with
  | some m => { s with mappings := alistSet name { m with enabled := true } s.mappings }
  | none => s

/-- `MIDIController.disable_mapping`: when the name is present, clear the
enabled flag of that mapping in place. -/
def disable_mapping (s : CState) (name : String) : CState :=
  match alistFind name s.mappings with
  | some m => { s with mappings := alistSet name { m with enabled := false } s.mappings }
  | none => s

/-- A state with a single mapping: the zoom mapping on (1, 0) with its handler
registered and fresh throttle state. -/
def solo_state : CState :=
  { mappings := [("zoom", zoom_mapping)], control_handlers := ["camera_zoom"],
    last_update_times := [], throttle_interval := default_throttle_interval,
    expensive_controls := [], last_values := [], is_running := true }

/-- Python logging level constant `logging.DEBUG`. -/
def DEBUG_LEVEL : Nat := 10

/-- Python logging level constant `logging.INFO`. -/
def INFO_LEVEL : Nat := 20

/-- Python logging level constant `logging.WARNING`. -/
def WARNING_LEVEL : Nat := 30

/-- Python logging level constant `logging.ERROR`. -/
def ERROR_LEVEL : Nat := 40

/-- Python logging level constant `logging.CRITICAL`. -/
def CRITICAL_LEVEL : Nat := 50

/-- The module constant `LOGGING = True` in logger.py. -/
def LOGGING : Bool := true

/-- One record handed to the logging sink by `Logger.message`: severity level
and decorated text.  The sink (the logging backend) is out of scope. -/
structure LogRecord where
  level : Nat
  text : String
  deriving DecidableEq

/-- The `LEVEL_EMOJIS` table with its fallback. -/
def level_emoji (level : Nat) : String :=
  if level = DEBUG_LEVEL then "🔍"
  else if level = INFO_LEVEL then "ℹ️"
  else if level = WARNING_LEVEL then "⚠️"
  else if level = ERROR_LEVEL then "❌"
  else if level = CRITICAL_LEVEL then "💥"
  else "🔔"

/-- Substring containment, modelling the Python `in` operator on str. -/
def str_contains (hay needle : String) : Bool :=
  (List.range (hay.length + 1)).any fun i => needle.toList.isPrefixOf (hay.toList.drop i)

/-- `get_qc_tag`: the message is lowercased and scanned for marker substrings;
the capitalised markers are compared verbatim against the lowercased text, as
in the source. -/
def get_qc_tag (msg : String) : String :=
  let low := msg.toLower
  if str_contains low "success rate" then "📊"
  else if str_contains low "updat" || str_contains low "success"
      || str_contains low "passed" || str_contains low "Enabl"
      || str_contains low "Setting up" then "✅"
  else if str_contains low "fail" || str_contains low "error" then "❌"
  else " "

/-- `decorate_log_message`: prepend the level emoji and the QC tag. -/
def decorate_log_message (message : String) (level : Nat) : String :=
  level_emoji level ++ get_qc_tag message ++ message

/-- `Logger.message`: decorate the text and emit one record at the given level
when logging is on and not silent.  The stacklevel argument only shapes the
backend frame attribution and is not modelled. -/
def Logger.message (message : String) (level : Nat) (silent : Bool) : List LogRecord :=
  if LOGGING && !silent then [⟨level, decorate_log_message message level⟩] else []

/-- `Logger.error`: append the exception text when one is given, then log via
`Logger.message` at the given level (ERROR at the call site in `Logger.json`). -/
def Logger.error (message : String) (exn : Option String) (level : Nat)
    (silent : Bool) : List LogRecord :=
  let full := match exn with
    | some e => message ++ ": " ++ e
    | none => message
  Logger.message full level silent

/-- A Python object reaching json.dumps: the dumps field is the compact JSON
string when the object serializes, or the text of the TypeError or ValueError
that json.dumps raises when it does not. -/
structure PyObj where
  dumps : Except String String

/-- The data argument of `Logger.json`: a Python str together with the result
of json.loads on it (none when it raises JSONDecodeError), or any other
object. -/
inductive PyData where
  | ofString (s : String) (loads : Option PyObj)
  | ofObj (o : PyObj)

/-- The serialization tail of `Logger.json`: `json.dumps(data,
separators=...)` inside try/except — a TypeError or ValueError is caught and
logged through `Logger.error`, then the method returns; otherwise the compact
line is logged unless silent. -/
def json_dump_tail (o : PyObj) (silent : Bool) : List LogRecord :=
  match o.dumps with
  | Except.error e => Logger.error "Failed to serialize JSON" (some e) ERROR_LEVEL false
  | Except.ok compact_json =>
      if !silent then Logger.message compact_json INFO_LEVEL false else []

/-- `Logger.json`: a str argument is parsed first, and an invalid JSON string
logs a warning and returns; then the data is serialized compactly.  The
function is total: every exception raised in the body is caught. -/
def Logger.json (data : PyData) (silent : Bool) : List LogRecord :=
  match data with
  | .ofString _ none =>
      Logger.message "Invalid JSON string provided." WARNING_LEVEL false
  | .ofString _ (some o) => json_dump_tail o silent
  | .ofObj o => json_dump_tail o silent

theorem alistFind_alistSet_self {α : Type} (k : String) (v : α) (l : List (String × α)) :
    alistFind k (alistSet k v l) = some v := by
  induction l with
  | nil => simp [alistFind, alistSet]
  | cons p rest ih =>
      obtain ⟨k₀, v₀⟩ := p
      by_cases h : k₀ = k
      · simp [alistFind, alistSet, h]
      · simp [alistFind, alistSet, h, ih]

theorem alistFind_alistSet_ne {α : Type} (k k₁ : String) (v : α) (l : List (String × α))
    (h : k₁ ≠ k) : alistFind k₁ (alistSet k v l) = alistFind k₁ l := by
  induction l with
  | nil =>
      simp only [alistSet, alistFind]
      rw [if_neg (Ne.symm h)]
  | cons p rest ih =>
      obtain ⟨k₀, v₀⟩ := p
      by_cases hk : k₀ = k
      · subst hk
        simp only [alistSet, if_pos rfl, alistFind]
        rw [if_neg (Ne.symm h), if_neg (Ne.symm h)]
      · simp only [alistSet, if_neg hk, alistFind]
        by_cases hk₁ : k₀ = k₁
        · simp [hk₁]
        · simp [hk₁, ih]

theorem alistSet_alistSet {α : Type} (k : String) (v₁ v₂ : α) (l : List (String × α)) :
    alistSet k v₂ (alistSet k v₁ l) = alistSet k v₂ l := by
  induction l with
  | nil => simp [alistSet]
  | cons p rest ih =>
      obtain ⟨k₀, v₀⟩ := p
      by_cases h : k₀ = k <;> simp [alistSet, h, ih]

theorem alistSet_of_find_eq {α : Type} (k : String) (v : α) (l : List (String × α))
    (h : alistFind k l = some v) : alistSet k v l = l := by
  induction l with
  | nil => simp [alistFind] at h
  | cons p rest ih =>
      obtain ⟨k₀, v₀⟩ := p
      by_cases hk : k₀ = k
      · subst hk
        simp [alistFind] at h
        simp [alistSet, h]
      · simp [alistFind, hk] at h
        simp [alistSet, hk, ih h]

theorem mem_of_alistFind {α : Type} (k : String) (v : α) (l : List (String × α))
    (h : alistFind k l = some v) : (k, v) ∈ l := by
  induction l with
  | nil => simp [alistFind] at h
  | cons p rest ih =>
      obtain ⟨k₀, v₀⟩ := p
      by_cases hk : k₀ = k
      · subst hk
        simp [alistFind] at h
        simp [h]
      · simp [alistFind, hk] at h
        exact List.mem_cons_of_mem _ (ih h)

theorem mem_alistSet {α : Type} (k : String) (v : α) (l : List (String × α))
    (p : String × α) (hnd : (l.map Prod.fst).Nodup) (hp : p ∈ alistSet k v l) :
    p = (k, v) ∨ (p ∈ l ∧ p.1 ≠ k) := by
  induction l with
  | nil =>
      rw [show alistSet k v ([] : List (String × α)) = [(k, v)] from rfl] at hp
      exact Or.inl (List.mem_singleton.mp hp)
  | cons q rest ih =>
      obtain ⟨k₀, v₀⟩ := q
      rw [List.map_cons, List.nodup_cons] at hnd
      by_cases hk : k₀ = k
      · subst hk
        rw [show alistSet k₀ v ((k₀, v₀) :: rest) = (k₀, v) :: rest from by
              simp [alistSet]] at hp
        rcases List.mem_cons.mp hp with h₁ | h₁
        · exact Or.inl h₁
        · refine Or.inr ⟨List.mem_cons_of_mem _ h₁, ?_⟩
          intro hfst
          have hmem : p.1 ∈ rest.map Prod.fst := List.mem_map_of_mem Prod.fst h₁
          rw [hfst] at hmem
          exact hnd.1 hmem
      · rw [show alistSet k v ((k₀, v₀) :: rest) = (k₀, v₀) :: alistSet k v rest from by
              simp [alistSet, hk]] at hp
        rcases List.mem_cons.mp hp with h₁ | h₁
        · refine Or.inr ⟨by simp [h₁], ?_⟩
          simpa [h₁] using hk
        · rcases ih hnd.2 h₁ with h₂ | h₂
          · exact Or.inl h₂
          · exact Or.inr ⟨List.mem_cons_of_mem _ h₂.1, h₂.2⟩

theorem alistFind_unique {α : Type} (k : String) (a b : α) (l : List (String × α))
    (hnd : (l.map Prod.fst).Nodup) (ha : (k, a) ∈ l) (hb : (k, b) ∈ l) : a = b := by
  induction l with
  | nil => simp at ha
  | cons q rest ih =>
      obtain ⟨k₀, v₀⟩ := q
      rw [List.map_cons, List.nodup_cons] at hnd
      rcases List.mem_cons.mp ha with ha₁ | ha₁
      · rcases List.mem_cons.mp hb with hb₁ | hb₁
        · rw [Prod.mk.injEq] at ha₁ hb₁
          exact ha₁.2.trans hb₁.2.symm
        · exfalso
          rw [Prod.mk.injEq] at ha₁
          have hmem : k ∈ rest.map Prod.fst := List.mem_map_of_mem Prod.fst hb₁
          rw [ha₁.1] at hmem
          exact hnd.1 hmem
      · rcases List.mem_cons.mp hb with hb₁ | hb₁
        · exfalso
          rw [Prod.mk.injEq] at hb₁
          have hmem : k ∈ rest.map Prod.fst := List.mem_map_of_mem Prod.fst ha₁
          rw [hb₁.1] at hmem
          exact hnd.1 hmem
        · exact ih hnd.2 ha₁ hb₁

/-- Claim C1: for every raw MIDI value v in [0,127] and every mapping with
target range [lo, hi], `_convert_midi_value` computes lo + (v/127)*(hi-lo);
at v = 0 the result is exactly lo and at v = 127 it is exactly hi.
Real arithmetic is modelled over the rationals. -/
theorem convert_midi_value_spec (v : Int) (m : MIDIMapping)
    (_h0 : 0 ≤ v) (_h127 : v ≤ 127) :
    convert_midi_value v m
        = m.target_min + ((v : ℚ) / 127) * (m.target_max - m.target_min)
      ∧ convert_midi_value 0 m = m.target_min
      ∧ convert_midi_value 127 m = m.target_max := by
  refine ⟨rfl, ?_, ?_⟩
  · simp [convert_midi_value]
  · show m.target_min + ((127 : ℚ) / 127) * (m.target_max - m.target_min) = m.target_max
    norm_num

/-- Witness for C1 at v = 64 on the concrete zoom mapping. -/
theorem convert_midi_value_spec_witness :
    (0 : Int) ≤ 64 ∧ (64 : Int) ≤ 127 ∧
      (convert_midi_value 64 zoom_mapping
          = zoom_mapping.target_min
              + (((64 : Int) : ℚ) / 127)
                  * (zoom_mapping.target_max - zoom_mapping.target_min)
        ∧ convert_midi_value 0 zoom_mapping = zoom_mapping.target_min
        ∧ convert_midi_value 127 zoom_mapping = zoom_mapping.target_max) :=
  ⟨by decide, by decide, convert_midi_value_spec 64 zoom_mapping (by decide) (by decide)⟩

/-- Claim C10: the conversion reads only the raw value and the target range of
the mapping; changing the source-range fields min_value and max_value leaves
the result unchanged, and the divisor is always the fixed 127. -/
theorem convert_midi_value_ignores_source_range (v : Int) (m : MIDIMapping) (a b : ℚ) :
    convert_midi_value v { m with min_value := a, max_value := b } = convert_midi_value v m
      ∧ convert_midi_value v m
          = m.target_min + ((v : ℚ) / 127) * (m.target_max - m.target_min) :=
  ⟨rfl, rfl⟩

/-- Claim C3: when a last delivered value exists for the target function and
the converted value differs from it by less than `max(0.001, abs(value)*0.001)`,
`_call_control_handler` does not invoke the callback and leaves the state
unchanged, whatever the throttle situation is. -/
theorem noise_floor_suppresses (hexn : String → ℚ → Option String) (s : CState)
    (fn : String) (value t lv : ℚ)
    (hlv : alistFind fn s.last_values = some lv)
    (hsmall : |value - lv| < noise_floor value) :
    call_control_handler hexn s fn value t = Except.ok (s, none) := by
  unfold call_control_handler
  by_cases hmem : fn ∈ s.control_handlers
  · simp only [if_pos hmem]
    have hng : noise_gate_call hexn s fn value t = (s, none) := by
      unfold noise_gate_call
      rw [hlv]
      simp [hsmall]
    cases hfind : alistFind fn s.last_update_times with
    | none => simp [hng]
    | some tlast =>
        by_cases hth : t - tlast < throttle_for s fn <;> simp [hth, hng]
  · simp [if_neg hmem]

/-- Witness for C3: with the handler registered, a change of 1/10000 from the
last delivered value 1/2 is below the noise floor and is suppressed, at a time
(10) far past the throttle interval. -/
theorem noise_floor_suppresses_witness :
    alistFind "camera_zoom" w3_state.last_values = some (1/2)
      ∧ |(1/2 + 1/10000 : ℚ) - 1/2| < noise_floor (1/2 + 1/10000)
      ∧ call_control_handler (fun _ _ => none) w3_state "camera_zoom" (1/2 + 1/10000) 10
          = Except.ok (w3_state, none) := by
  have h₁ : alistFind "camera_zoom" w3_state.last_values = some (1/2) := rfl
  have h₂ : |(1/2 + 1/10000 : ℚ) - 1/2| < noise_floor (1/2 + 1/10000) := by
    have hv : (1/2 + 1/10000 : ℚ) - 1/2 = 1/10000 := by norm_num
    rw [noise_floor, hv, abs_of_pos (by norm_num : (0:ℚ) < 1/10000),
      abs_of_pos (by norm_num : (0:ℚ) < 1/2 + 1/10000),
      max_eq_left (by norm_num : (1/2 + 1/10000 : ℚ) * (1/1000) ≤ 1/1000)]
    norm_num
  exact ⟨h₁, h₂,
    noise_floor_suppresses (fun _ _ => none) w3_state "camera_zoom" (1/2 + 1/10000) 10
      (1/2) h₁ h₂⟩

theorem noise_gate_call_cases (hexn : String → ℚ → Option String) (s : CState)
    (fn : String) (value t : ℚ) :
    noise_gate_call hexn s fn value t = (s, none)
      ∨ (hexn fn value = none
          ∧ noise_gate_call hexn s fn value t
              = (record_dispatch s fn value t, some ⟨fn, value, true⟩))
      ∨ (hexn fn value ≠ none
          ∧ noise_gate_call hexn s fn value t = (s, some ⟨fn, value, false⟩)) := by
  have hatt : attempt_handler hexn s fn value t
        = (record_dispatch s fn value t, some ⟨fn, value, true⟩) ∧ hexn fn value = none
      ∨ attempt_handler hexn s fn value t = (s, some ⟨fn, value, false⟩)
          ∧ hexn fn value ≠ none := by
    cases hx : hexn fn value with
    | none => exact Or.inl ⟨by simp [attempt_handler, hx], rfl⟩
    | some e => exact Or.inr ⟨by simp [attempt_handler, hx], by simp [hx]⟩
  unfold noise_gate_call
  cases hlv : alistFind fn s.last_values with
  | some lv =>
      by_cases hns : |value - lv| < noise_floor value
      · left
        simp [hns]
      · rcases hatt with h | h
        · right; left
          exact ⟨h.2, by simp [hns, h.1]⟩
        · right; right
          exact ⟨h.2, by simp [hns, h.1]⟩
  | none =>
      rcases hatt with h | h
      · right; left
        exact ⟨h.2, h.1⟩
      · right; right
        exact ⟨h.2, h.1⟩

/-- Case analysis of `_call_control_handler`: the call always returns normally,
and either the dispatch is dropped with the state unchanged, or the handler is
invoked; on normal return of the handler the two throttle entries are written,
on an exception the state is unchanged. -/
theorem call_control_handler_cases (hexn : String → ℚ → Option String) (s : CState)
    (fn : String) (value t : ℚ) :
    call_control_handler hexn s fn value t = Except.ok (s, none)
      ∨ (hexn fn value = none ∧ fn ∈ s.control_handlers
          ∧ call_control_handler hexn s fn value t
              = Except.ok (record_dispatch s fn value t, some ⟨fn, value, true⟩))
      ∨ (hexn fn value ≠ none ∧ fn ∈ s.control_handlers
          ∧ call_control_handler hexn s fn value t
              = Except.ok (s, some ⟨fn, value, false⟩)) := by
  unfold call_control_handler
  by_cases hmem : fn ∈ s.control_handlers
  · simp only [if_pos hmem]
    have hng := noise_gate_call_cases hexn s fn value t
    cases hlut : alistFind fn s.last_update_times with
    | some tlast =>
        by_cases hth : t - tlast < throttle_for s fn
        · left
          simp [hth]
        · simp only [if_neg hth]
          rcases hng with h | h | h
          · left; rw [h]
          · right; left; exact ⟨h.1, hmem, by rw [h.2]⟩
          · right; right; exact ⟨h.1, hmem, by rw [h.2]⟩
    | none =>
        rcases hng with h | h | h
        · left; rw [h]
        · right; left; exact ⟨h.1, hmem, by rw [h.2]⟩
        · right; right; exact ⟨h.1, hmem, by rw [h.2]⟩
  · left
    simp [hmem]

/-- Every outcome of `_call_control_handler` leaves the mapping table, the
handler registry and the throttle configuration untouched; only the two
throttle bookkeeping maps can change. -/
theorem call_control_handler_config (hexn : String → ℚ → Option String) (s : CState)
    (fn : String) (value t : ℚ) (s' : CState) (i : Option Invocation)
    (h : call_control_handler hexn s fn value t = Except.ok (s', i)) :
    s'.mappings = s.mappings ∧ s'.control_handlers = s.control_handlers
      ∧ s'.throttle_interval = s.throttle_interval
      ∧ s'.expensive_controls = s.expensive_controls := by
  rcases call_control_handler_cases hexn s fn value t with hc | hc | hc
  · rw [hc] at h
    obtain ⟨hs, -⟩ := Prod.mk.injEq .. ▸ Except.ok.inj h
    rw [← hs]
    exact ⟨rfl, rfl, rfl, rfl⟩
  · rw [hc.2.2] at h
    obtain ⟨hs, -⟩ := Prod.mk.injEq .. ▸ Except.ok.inj h
    rw [← hs]
    exact ⟨rfl, rfl, rfl, rfl⟩
  · rw [hc.2.2] at h
    obtain ⟨hs, -⟩ := Prod.mk.injEq .. ▸ Except.ok.inj h
    rw [← hs]
    exact ⟨rfl, rfl, rfl, rfl⟩

/-- Every invocation produced by `_handle_control_change` comes from the first
enabled matching mapping returned by the table search. -/
theorem handle_invocation_source (hexn : String → ℚ → Option String) (s : CState)
    (msg : ControlChangeMsg) (t : ℚ) (s' : CState) (inv : Invocation)
    (h : handle_control_change hexn s msg t = Except.ok (s', some inv)) :
    ∃ name m, find_enabled_mapping msg.control msg.channel s.mappings = some (name, m)
      ∧ inv.fn = m.target_function := by
  unfold handle_control_change at h
  cases hf : find_enabled_mapping msg.control msg.channel s.mappings with
  | none =>
      rw [hf] at h
      simp at h
  | some nm =>
      obtain ⟨name, m⟩ := nm
      rw [hf] at h
      have h' : call_control_handler hexn s m.target_function
          (convert_midi_value msg.value m) t = Except.ok (s', some inv) := h
      refine ⟨name, m, rfl, ?_⟩
      rcases call_control_handler_cases hexn s m.target_function
          (convert_midi_value msg.value m) t with hc | hc | hc
      · rw [hc] at h'
        simp at h'
      · rw [hc.2.2] at h'
        obtain ⟨-, hi⟩ := Prod.mk.injEq .. ▸ Except.ok.inj h'
        rw [← Option.some.inj hi]
      · rw [hc.2.2] at h'
        obtain ⟨-, hi⟩ := Prod.mk.injEq .. ▸ Except.ok.inj h'
        rw [← Option.some.inj hi]

/-- Claim C4: when a control-change event produces an invocation, the invoked
target function is the one of the first enabled mapping matching the
(control, channel) pair in table insertion order; mappings later in the table
never receive the dispatch for that pair. -/
theorem first_match_wins (hexn : String → ℚ → Option String) (s : CState)
    (msg : ControlChangeMsg) (t : ℚ) (s' : CState) (inv : Invocation)
    (h : handle_control_change hexn s msg t = Except.ok (s', some inv)) :
    ∃ name m, find_enabled_mapping msg.control msg.channel s.mappings = some (name, m)
      ∧ inv.fn = m.target_function :=
  handle_invocation_source hexn s msg t s' inv h

/-- Witness for C4: on the duplicate (1, 0) pair the produced invocation names
f1, the target of the first-inserted mapping. -/
theorem first_match_wins_witness :
    ∃ name m, find_enabled_mapping 1 0 dup_state.mappings = some (name, m)
      ∧ (Invocation.mk "f1" (convert_midi_value 64 dup_m1) true).fn = m.target_function := by
  have h : handle_control_change (fun _ _ => none) dup_state ⟨1, 0, 64⟩ 0
      = Except.ok (record_dispatch dup_state "f1" (convert_midi_value 64 dup_m1) 0,
          some ⟨"f1", convert_midi_value 64 dup_m1, true⟩) := by
    simp [handle_control_change, find_enabled_mapping, dup_state, dup_m1, dup_m2,
      call_control_handler, noise_gate_call, attempt_handler, alistFind]
  exact first_match_wins (fun _ _ => none) dup_state ⟨1, 0, 64⟩ 0 _ _ h

/-- Claim C7: the throttle entries (last-invocation timestamp and
last-delivered value) are written only when the callback returns normally; in
particular a dispatch in which the callback raises leaves the throttle state
unchanged and does not count as a delivery. -/
theorem throttle_state_written_only_on_success (hexn : String → ℚ → Option String)
    (s : CState) (fn : String) (value t : ℚ) (s' : CState) (i : Option Invocation)
    (h : call_control_handler hexn s fn value t = Except.ok (s', i))
    (hchg : s' ≠ s) :
    hexn fn value = none ∧ i = some ⟨fn, value, true⟩
      ∧ s' = record_dispatch s fn value t := by
  rcases call_control_handler_cases hexn s fn value t with hc | hc | hc
  · rw [hc] at h
    obtain ⟨hs, -⟩ := Prod.mk.injEq .. ▸ Except.ok.inj h
    exact absurd hs.symm hchg
  · rw [hc.2.2] at h
    obtain ⟨hs, hi⟩ := Prod.mk.injEq .. ▸ Except.ok.inj h
    exact ⟨hc.1, hi.symm, hs.symm⟩
  · rw [hc.2.2] at h
    obtain ⟨hs, -⟩ := Prod.mk.injEq .. ▸ Except.ok.inj h
    exact absurd hs.symm hchg

/-- Witness for C7: a successful dispatch from the fresh state writes both
throttle entries, and the conclusion of the theorem identifies it as a normal
return. -/
theorem throttle_state_written_only_on_success_witness :
    (fun (_ : String) (_ : ℚ) => (none : Option String)) "f1" (1/2) = none
      ∧ (some ⟨"f1", 1/2, true⟩ : Option Invocation) = some ⟨"f1", 1/2, true⟩
      ∧ record_dispatch dup_state "f1" (1/2) 0 = record_dispatch dup_state "f1" (1/2) 0 := by
  have h : call_control_handler (fun _ _ => none) dup_state "f1" (1/2) 0
      = Except.ok (record_dispatch dup_state "f1" (1/2) 0, some ⟨"f1", 1/2, true⟩) := by
    simp [call_control_handler, dup_state, noise_gate_call, attempt_handler, alistFind]
  have hchg : record_dispatch dup_state "f1" (1/2) 0 ≠ dup_state := by
    intro hEq
    have := congrArg CState.last_update_times hEq
    simp [record_dispatch, dup_state, alistSet] at this
  exact throttle_state_written_only_on_success (fun _ _ => none) dup_state "f1" (1/2) 0
    _ _ h hchg

/-- When a last-dispatch timestamp exists and the elapsed time is below the
throttle interval, `_call_control_handler` drops the event. -/
theorem throttle_gate_drops (hexn : String → ℚ → Option String) (s : CState)
    (fn : String) (value t tlast : ℚ)
    (hlut : alistFind fn s.last_update_times = some tlast)
    (hth : t - tlast < throttle_for s fn) :
    call_control_handler hexn s fn value t = Except.ok (s, none) := by
  unfold call_control_handler
  by_cases hmem : fn ∈ s.control_handlers
  · simp [hmem, hlut, hth]
  · simp [hmem]

/-- When the noise-floor gate passes (or no last value exists), the gated call
reduces to the handler attempt. -/
theorem noise_gate_call_passes (hexn : String → ℚ → Option String) (s : CState)
    (fn : String) (value t : ℚ)
    (hnv : ∀ lv, alistFind fn s.last_values = some lv → noise_floor value ≤ |value - lv|) :
    noise_gate_call hexn s fn value t = attempt_handler hexn s fn value t := by
  unfold noise_gate_call
  cases hlv : alistFind fn s.last_values with
  | some lv =>
      show (if |value - lv| < noise_floor value then (s, none)
          else attempt_handler hexn s fn value t) = attempt_handler hexn s fn value t
      rw [if_neg (not_lt.mpr (hnv lv hlv))]
  | none => rfl

/-- When the handler is registered and both gates pass,
`_call_control_handler` reaches the handler call. -/
theorem call_control_handler_invokes (hexn : String → ℚ → Option String) (s : CState)
    (fn : String) (value t : ℚ)
    (hmem : fn ∈ s.control_handlers)
    (hth : ∀ tl, alistFind fn s.last_update_times = some tl → throttle_for s fn ≤ t - tl)
    (hnv : ∀ lv, alistFind fn s.last_values = some lv → noise_floor value ≤ |value - lv|) :
    call_control_handler hexn s fn value t
      = Except.ok (attempt_handler hexn s fn value t) := by
  unfold call_control_handler
  simp only [if_pos hmem]
  cases hlut : alistFind fn s.last_update_times with
  | some tl =>
      show (if t - tl < throttle_for s fn then Except.ok (s, none)
          else Except.ok (noise_gate_call hexn s fn value t))
        = Except.ok (attempt_handler hexn s fn value t)
      rw [if_neg (not_lt.mpr (hth tl hlut)), noise_gate_call_passes hexn s fn value t hnv]
  | none =>
      show Except.ok (noise_gate_call hexn s fn value t)
        = Except.ok (attempt_handler hexn s fn value t)
      rw [noise_gate_call_passes hexn s fn value t hnv]

/-- A successful delivery pins down every component of the outcome: the
invocation carries the target name and the value, the callback returned
normally, the handler was registered, and the throttle entries were written. -/
theorem call_control_handler_delivered (hexn : String → ℚ → Option String) (s : CState)
    (fn : String) (value t : ℚ) (s' : CState) (i : Option Invocation)
    (h : call_control_handler hexn s fn value t = Except.ok (s', i))
    (hd : delivered i = true) :
    i = some ⟨fn, value, true⟩ ∧ hexn fn value = none ∧ fn ∈ s.control_handlers
      ∧ s' = record_dispatch s fn value t := by
  rcases call_control_handler_cases hexn s fn value t with hc | hc | hc
  · rw [hc] at h
    obtain ⟨-, hi⟩ := Prod.mk.injEq .. ▸ Except.ok.inj h
    rw [← hi] at hd
    simp [delivered] at hd
  · rw [hc.2.2] at h
    obtain ⟨hs, hi⟩ := Prod.mk.injEq .. ▸ Except.ok.inj h
    exact ⟨hi.symm, hc.1, hc.2.1, hs.symm⟩
  · rw [hc.2.2] at h
    obtain ⟨-, hi⟩ := Prod.mk.injEq .. ▸ Except.ok.inj h
    rw [← hi] at hd
    simp [delivered] at hd

/-- Claim C2, amended: for two consecutive dispatches to the same target
function, (a) when the events are less than the throttle interval apart, at
most one of them is a successful (normally returning) delivery — an invocation
in which the callback raises does not update the throttle state and therefore
does not suppress the next event; and (b) when they are at least the throttle
interval apart, the callback returns normally on both, the handler is
registered, and each event passes its gates (the first against the prior
state, the second differing from the first delivered value by at least the
noise floor), then both events are delivered. -/
theorem throttle_spacing (hexn : String → ℚ → Option String) (s s₁ s₂ : CState)
    (fn : String) (v₁ v₂ t₁ t₂ : ℚ) (i₁ i₂ : Option Invocation)
    (h₁ : call_control_handler hexn s fn v₁ t₁ = Except.ok (s₁, i₁))
    (h₂ : call_control_handler hexn s₁ fn v₂ t₂ = Except.ok (s₂, i₂)) :
    (t₂ - t₁ < throttle_for s fn → ¬(delivered i₁ = true ∧ delivered i₂ = true))
      ∧ (throttle_for s fn ≤ t₂ - t₁ →
          fn ∈ s.control_handlers →
          hexn fn v₁ = none → hexn fn v₂ = none →
          (∀ tl, alistFind fn s.last_update_times = some tl →
            throttle_for s fn ≤ t₁ - tl) →
          (∀ lv, alistFind fn s.last_values = some lv → noise_floor v₁ ≤ |v₁ - lv|) →
          noise_floor v₂ ≤ |v₂ - v₁| →
          delivered i₁ = true ∧ delivered i₂ = true) := by
  constructor
  · rintro hlt ⟨hd₁, hd₂⟩
    obtain ⟨-, -, -, hs₁⟩ := call_control_handler_delivered hexn s fn v₁ t₁ s₁ i₁ h₁ hd₁
    have hlut₁ : alistFind fn s₁.last_update_times = some t₁ := by
      rw [hs₁]
      exact alistFind_alistSet_self fn t₁ s.last_update_times
    have hthr : throttle_for s₁ fn = throttle_for s fn := by rw [hs₁]; rfl
    have hdrop : call_control_handler hexn s₁ fn v₂ t₂ = Except.ok (s₁, none) :=
      throttle_gate_drops hexn s₁ fn v₂ t₂ t₁ hlut₁ (by rw [hthr]; exact hlt)
    rw [hdrop] at h₂
    obtain ⟨-, hi⟩ := Prod.mk.injEq .. ▸ Except.ok.inj h₂
    rw [← hi] at hd₂
    simp [delivered] at hd₂
  · intro hge hmem hx₁ hx₂ hth hnv hnv₂
    have hinv₁ : call_control_handler hexn s fn v₁ t₁
        = Except.ok (attempt_handler hexn s fn v₁ t₁) :=
      call_control_handler_invokes hexn s fn v₁ t₁ hmem hth hnv
    have hatt₁ : attempt_handler hexn s fn v₁ t₁
        = (record_dispatch s fn v₁ t₁, some ⟨fn, v₁, true⟩) := by
      simp [attempt_handler, hx₁]
    rw [hinv₁, hatt₁] at h₁
    obtain ⟨hs₁, hi₁⟩ := Prod.mk.injEq .. ▸ Except.ok.inj h₁
    have hmem₁ : fn ∈ s₁.control_handlers := by rw [← hs₁]; exact hmem
    have hth₁ : ∀ tl, alistFind fn s₁.last_update_times = some tl →
        throttle_for s₁ fn ≤ t₂ - tl := by
      intro tl htl
      rw [← hs₁] at htl ⊢
      rw [show throttle_for (record_dispatch s fn v₁ t₁) fn = throttle_for s fn from rfl]
      rw [show (record_dispatch s fn v₁ t₁).last_update_times
          = alistSet fn t₁ s.last_update_times from rfl,
        alistFind_alistSet_self fn t₁ s.last_update_times] at htl
      rw [← Option.some.inj htl]
      exact hge
    have hnv₁ : ∀ lv, alistFind fn s₁.last_values = some lv →
        noise_floor v₂ ≤ |v₂ - lv| := by
      intro lv hlv
      rw [← hs₁] at hlv
      rw [show (record_dispatch s fn v₁ t₁).last_values
          = alistSet fn v₁ s.last_values from rfl,
        alistFind_alistSet_self fn v₁ s.last_values] at hlv
      rw [← Option.some.inj hlv]
      exact hnv₂
    have hinv₂ : call_control_handler hexn s₁ fn v₂ t₂
        = Except.ok (attempt_handler hexn s₁ fn v₂ t₂) :=
      call_control_handler_invokes hexn s₁ fn v₂ t₂ hmem₁ hth₁ hnv₁
    have hatt₂ : attempt_handler hexn s₁ fn v₂ t₂
        = (record_dispatch s₁ fn v₂ t₂, some ⟨fn, v₂, true⟩) := by
      simp [attempt_handler, hx₂]
    rw [hinv₂, hatt₂] at h₂
    obtain ⟨-, hi₂⟩ := Prod.mk.injEq .. ▸ Except.ok.inj h₂
    rw [← hi₁, ← hi₂]
    exact ⟨rfl, rfl⟩

/-- Counterexample to claim C2 as stated: with a callback that raises, two raw
events on the (1, 0) pair — both mapping to f1 — arriving 1/100 apart, which
is less than the throttle interval 1/20 for f1, EACH invoke the f1 callback:
the first failed invocation does not update the throttle state, so the second
event is not throttled.  The claim promises at most one callback invocation. -/
theorem throttle_claim_counterexample :
    handle_control_change raising_hexn dup_state ⟨1, 0, 10⟩ 0
        = Except.ok (dup_state, some ⟨"f1", convert_midi_value 10 dup_m1, false⟩)
      ∧ handle_control_change raising_hexn dup_state ⟨1, 0, 120⟩ (1/100)
          = Except.ok (dup_state, some ⟨"f1", convert_midi_value 120 dup_m1, false⟩)
      ∧ (1/100 : ℚ) - 0 < throttle_for dup_state "f1" := by
  refine ⟨?_, ?_, ?_⟩
  · simp [handle_control_change, find_enabled_mapping, dup_state, dup_m1, dup_m2,
      call_control_handler, noise_gate_call, attempt_handler, alistFind, raising_hexn]
  · simp [handle_control_change, find_enabled_mapping, dup_state, dup_m1, dup_m2,
      call_control_handler, noise_gate_call, attempt_handler, alistFind, raising_hexn]
  · rw [show throttle_for dup_state "f1" = default_throttle_interval from rfl,
      default_throttle_interval]
    norm_num

/-- Witness for the amended C2: from a fresh state, two normally returning
dispatches at times 0 and 1/10 ≥ 1/20 apart, with values 0 and 1/2 clearing
the noise floor, are both delivered. -/
theorem throttle_spacing_witness :
    delivered (some ⟨"f1", 0, true⟩) = true ∧ delivered (some ⟨"f1", 1/2, true⟩) = true := by
  have hmem : "f1" ∈ dup_state.control_handlers := by
    simp [dup_state]
  have hth : ∀ tl, alistFind "f1" dup_state.last_update_times = some tl →
      throttle_for dup_state "f1" ≤ (0 : ℚ) - tl := by
    intro tl htl
    simp [dup_state, alistFind] at htl
  have hnv : ∀ lv, alistFind "f1" dup_state.last_values = some lv →
      noise_floor 0 ≤ |(0 : ℚ) - lv| := by
    intro lv hlv
    simp [dup_state, alistFind] at hlv
  have h₁ : call_control_handler (fun _ _ => none) dup_state "f1" 0 0
      = Except.ok (record_dispatch dup_state "f1" 0 0, some ⟨"f1", 0, true⟩) := by
    rw [call_control_handler_invokes (fun _ _ => none) dup_state "f1" 0 0 hmem hth hnv]
    rfl
  have hth₂ : ∀ tl, alistFind "f1" (record_dispatch dup_state "f1" 0 0).last_update_times
      = some tl → throttle_for (record_dispatch dup_state "f1" 0 0) "f1" ≤ (1/10 : ℚ) - tl := by
    intro tl htl
    rw [show (record_dispatch dup_state "f1" 0 0).last_update_times
        = alistSet "f1" 0 dup_state.last_update_times from rfl,
      alistFind_alistSet_self] at htl
    rw [← Option.some.inj htl,
      show throttle_for (record_dispatch dup_state "f1" 0 0) "f1"
        = default_throttle_interval from rfl, default_throttle_interval]
    norm_num
  have hnv₂ : ∀ lv, alistFind "f1" (record_dispatch dup_state "f1" 0 0).last_values
      = some lv → noise_floor (1/2) ≤ |(1/2 : ℚ) - lv| := by
    intro lv hlv
    rw [show (record_dispatch dup_state "f1" 0 0).last_values
        = alistSet "f1" 0 dup_state.last_values from rfl,
      alistFind_alistSet_self] at hlv
    rw [← Option.some.inj hlv, noise_floor,
      abs_of_pos (by norm_num : (0:ℚ) < 1/2 - 0),
      abs_of_pos (by norm_num : (0:ℚ) < (1/2 : ℚ))]
    refine max_le (by norm_num) (by norm_num)
  have h₂ : call_control_handler (fun _ _ => none) (record_dispatch dup_state "f1" 0 0)
      "f1" (1/2) (1/10)
      = Except.ok (record_dispatch (record_dispatch dup_state "f1" 0 0) "f1" (1/2) (1/10),
          some ⟨"f1", 1/2, true⟩) := by
    rw [call_control_handler_invokes (fun _ _ => none) (record_dispatch dup_state "f1" 0 0)
      "f1" (1/2) (1/10) hmem hth₂ hnv₂]
    rfl
  exact (throttle_spacing (fun _ _ => none) dup_state _ _ "f1" 0 (1/2) 0 (1/10) _ _ h₁ h₂).2
    (by rw [show throttle_for dup_state "f1" = default_throttle_interval from rfl,
          default_throttle_interval]
        norm_num)
    hmem rfl rfl hth hnv
    (by rw [noise_floor, abs_of_pos (by norm_num : (0:ℚ) < 1/2 - 0),
          abs_of_pos (by norm_num : (0:ℚ) < (1/2 : ℚ))]
        exact max_le (by norm_num) (by norm_num))

/-- Claim C8: however the listener loop terminates — the stop flag observed,
the stream exhausted, or the stream (or a handler) raising — the running flag
is false when `_midi_loop` exits, because the `finally` block always clears
it. -/
theorem midi_loop_clears_running (hexn : String → ℚ → Option String) (s : CState)
    (items : List LoopItem) : (midi_loop hexn s items).1.is_running = false := rfl

theorem handle_control_change_ok (hexn : String → ℚ → Option String) (s : CState)
    (msg : ControlChangeMsg) (t : ℚ) :
    ∃ r, handle_control_change hexn s msg t = Except.ok r := by
  unfold handle_control_change
  cases hf : find_enabled_mapping msg.control msg.channel s.mappings with
  | none => exact ⟨(s, none), rfl⟩
  | some nm =>
      obtain ⟨name, m⟩ := nm
      rcases call_control_handler_cases hexn s m.target_function
          (convert_midi_value msg.value m) t with hc | hc | hc
      · exact ⟨_, hc⟩
      · exact ⟨_, hc.2.2⟩
      · exact ⟨_, hc.2.2⟩

theorem handle_message_ok (hexn : String → ℚ → Option String) (s : CState)
    (m : MidiMsg) (t : ℚ) : ∃ r, handle_message hexn s m t = Except.ok r := by
  cases m with
  | control_change msg =>
      obtain ⟨⟨s', i⟩, h⟩ := handle_control_change_ok hexn s msg t
      refine ⟨(s', i.toList), ?_⟩
      show (match handle_control_change hexn s msg t with
          | Except.ok (s', i) => Except.ok (s', i.toList)
          | Except.error e => Except.error e) = Except.ok (s', i.toList)
      rw [h]
  | note_on => exact ⟨(s, []), rfl⟩
  | note_off => exact ⟨(s, []), rfl⟩
  | other => exact ⟨(s, []), rfl⟩

theorem midi_loop_body_msg_run (hexn : String → ℚ → Option String) (s : CState)
    (m : MidiMsg) (t : ℚ) (rest : List LoopItem) (hr : s.is_running = true) :
    midi_loop_body hexn s (.msg m t :: rest)
      = match handle_message hexn s m t with
        | Except.ok (s', invs) =>
            let r := midi_loop_body hexn s' rest
            (r.1, invs ++ r.2.1, r.2.2)
        | Except.error e => (s, [], some e) := by
  rw [show midi_loop_body hexn s (.msg m t :: rest)
      = (if s.is_running = true then
          match handle_message hexn s m t with
          | Except.ok (s', invs) =>
              let r := midi_loop_body hexn s' rest
              (r.1, invs ++ r.2.1, r.2.2)
          | Except.error e => (s, [], some e)
        else (s, [], none)) from rfl, if_pos hr]

theorem midi_loop_body_msg_stop (hexn : String → ℚ → Option String) (s : CState)
    (m : MidiMsg) (t : ℚ) (rest : List LoopItem) (hr : s.is_running = false) :
    midi_loop_body hexn s (.msg m t :: rest) = (s, [], none) := by
  rw [show midi_loop_body hexn s (.msg m t :: rest)
      = (if s.is_running = true then
          match handle_message hexn s m t with
          | Except.ok (s', invs) =>
              let r := midi_loop_body hexn s' rest
              (r.1, invs ++ r.2.1, r.2.2)
          | Except.error e => (s, [], some e)
        else (s, [], none)) from rfl, hr]
  simp

/-- Claim C5: an exception raised by a callback is caught inside
`_call_control_handler` and does not propagate — the dispatch always returns
normally — and a run of the listener loop over a stream that itself raises no
exception finishes without an escaping error, whatever the callbacks raise,
so the processing of subsequent events is unaffected. -/
theorem callback_exception_not_propagated (hexn : String → ℚ → Option String)
    (s : CState) (fn : String) (value t : ℚ) (items : List LoopItem)
    (hclean : items.all (fun x => !x.isRaise) = true) :
    (∃ r, call_control_handler hexn s fn value t = Except.ok r)
      ∧ (midi_loop_body hexn s items).2.2 = none := by
  constructor
  · rcases call_control_handler_cases hexn s fn value t with hc | hc | hc
    · exact ⟨_, hc⟩
    · exact ⟨_, hc.2.2⟩
    · exact ⟨_, hc.2.2⟩
  · induction items generalizing s with
    | nil => rfl
    | cons x rest ih =>
        rw [List.all_cons, Bool.and_eq_true] at hclean
        cases x with
        | stop_flag => exact ih _ hclean.2
        | stream_raise e => simp [LoopItem.isRaise] at hclean
        | msg m t' =>
            cases hr : s.is_running with
            | true =>
                obtain ⟨⟨s', invs⟩, hm⟩ := handle_message_ok hexn s m t'
                rw [midi_loop_body_msg_run hexn s m t' rest hr, hm]
                exact ih s' hclean.2
            | false =>
                rw [midi_loop_body_msg_stop hexn s m t' rest hr]

/-- Witness for C5: an always-raising callback over two events on the
duplicate-pair state; the dispatch returns normally and the two-event loop run
reports no escaping error. -/
theorem callback_exception_not_propagated_witness :
    (∃ r, call_control_handler raising_hexn dup_state "f1" 0 0 = Except.ok r)
      ∧ (midi_loop_body raising_hexn dup_state
          [.msg (.control_change ⟨1, 0, 10⟩) 0,
           .msg (.control_change ⟨1, 0, 120⟩) (1/100)]).2.2 = none :=
  callback_exception_not_propagated raising_hexn dup_state "f1" 0 0
    [.msg (.control_change ⟨1, 0, 10⟩) 0, .msg (.control_change ⟨1, 0, 120⟩) (1/100)]
    (by decide)

theorem enable_mapping_eq (s : CState) (name : String) (m : MIDIMapping)
    (h : alistFind name s.mappings = some m) :
    enable_mapping s name
      = { s with mappings := alistSet name { m with enabled := true } s.mappings } := by
  unfold enable_mapping
  rw [h]

theorem disable_mapping_eq (s : CState) (name : String) (m : MIDIMapping)
    (h : alistFind name s.mappings = some m) :
    disable_mapping s name
      = { s with mappings := alistSet name { m with enabled := false } s.mappings } := by
  unfold disable_mapping
  rw [h]

theorem find_enabled_mapping_none (ctrl ch : Int) (l : List (String × MIDIMapping))
    (h : ∀ p ∈ l, ¬(p.2.control_number = ctrl ∧ p.2.channel = ch ∧ p.2.enabled = true)) :
    find_enabled_mapping ctrl ch l = none := by
  induction l with
  | nil => rfl
  | cons q rest ih =>
      obtain ⟨name, m⟩ := q
      unfold find_enabled_mapping
      rw [if_neg (h (name, m) (List.mem_cons_self _ _))]
      exact ih (fun p hp => h p (List.mem_cons_of_mem _ hp))

theorem find_enabled_mapping_mem (ctrl ch : Int) (l : List (String × MIDIMapping))
    (name : String) (m : MIDIMapping)
    (h : find_enabled_mapping ctrl ch l = some (name, m)) :
    (name, m) ∈ l ∧ m.control_number = ctrl ∧ m.channel = ch ∧ m.enabled = true := by
  induction l with
  | nil => exact absurd h (by simp [find_enabled_mapping])
  | cons q rest ih =>
      obtain ⟨n₀, m₀⟩ := q
      by_cases hc₀ : m₀.control_number = ctrl ∧ m₀.channel = ch ∧ m₀.enabled = true
      · rw [show find_enabled_mapping ctrl ch ((n₀, m₀) :: rest) = some (n₀, m₀) from by
            unfold find_enabled_mapping
            rw [if_pos hc₀]] at h
        have h' := Option.some.inj h
        rw [Prod.mk.injEq] at h'
        constructor
        · rw [← h'.1, ← h'.2]
          exact List.mem_cons_self _ _
        · rw [← h'.2]
          exact hc₀
      · rw [show find_enabled_mapping ctrl ch ((n₀, m₀) :: rest)
            = (if m₀.control_number = ctrl ∧ m₀.channel = ch ∧ m₀.enabled = true
              then some (n₀, m₀) else find_enabled_mapping ctrl ch rest) from rfl,
          if_neg hc₀] at h
        obtain ⟨h₁, h₂⟩ := ih h
        exact ⟨List.mem_cons_of_mem _ h₁, h₂⟩

theorem find_enabled_mapping_isSome (ctrl ch : Int) (l : List (String × MIDIMapping))
    (name : String) (m : MIDIMapping) (hmem : (name, m) ∈ l)
    (hc : m.control_number = ctrl ∧ m.channel = ch ∧ m.enabled = true) :
    ∃ nm, find_enabled_mapping ctrl ch l = some nm := by
  induction l with
  | nil => simp at hmem
  | cons q rest ih =>
      obtain ⟨n₀, m₀⟩ := q
      by_cases hc₀ : m₀.control_number = ctrl ∧ m₀.channel = ch ∧ m₀.enabled = true
      · refine ⟨(n₀, m₀), ?_⟩
        unfold find_enabled_mapping
        rw [if_pos hc₀]
      · rcases List.mem_cons.mp hmem with h₁ | h₁
        · exfalso
          rw [Prod.mk.injEq] at h₁
          exact hc₀ (h₁.2 ▸ hc)
        · obtain ⟨nm, hnm⟩ := ih h₁
          refine ⟨nm, ?_⟩
          unfold find_enabled_mapping
          rw [if_neg hc₀, hnm]

theorem handle_control_change_of_find_none (hexn : String → ℚ → Option String)
    (s : CState) (msg : ControlChangeMsg) (t : ℚ)
    (h : find_enabled_mapping msg.control msg.channel s.mappings = none) :
    handle_control_change hexn s msg t = Except.ok (s, none) := by
  unfold handle_control_change
  rw [h]

/-- Claim C6: a callback is never invoked on behalf of a disabled mapping.
Every invocation comes from an enabled matching mapping; when the single
mapping matching (ctrl, ch) is disabled by name, the matching event produces
no dispatch; after re-enabling it, the same event dispatches to its target
function again (the fresh-throttle hypotheses make the gates pass). -/
theorem disabled_mapping_never_dispatched (hexn : String → ℚ → Option String)
    (s : CState) (name : String) (ctrl ch v : Int) (t : ℚ) (m : MIDIMapping)
    (hnd : (s.mappings.map Prod.fst).Nodup)
    (hfound : alistFind name s.mappings = some m)
    (hmatch : m.control_number = ctrl ∧ m.channel = ch ∧ m.enabled = true)
    (honly : ∀ p ∈ s.mappings,
      (p.2.control_number = ctrl ∧ p.2.channel = ch ∧ p.2.enabled = true) → p.1 = name)
    (hmem : m.target_function ∈ s.control_handlers)
    (hlut : alistFind m.target_function s.last_update_times = none)
    (hlv : alistFind m.target_function s.last_values = none) :
    (∀ s' inv, handle_control_change hexn s ⟨ctrl, ch, v⟩ t = Except.ok (s', some inv) →
        ∃ n' m', (n', m') ∈ s.mappings ∧ m'.enabled = true ∧ inv.fn = m'.target_function)
      ∧ handle_control_change hexn (disable_mapping s name) ⟨ctrl, ch, v⟩ t
          = Except.ok (disable_mapping s name, none)
      ∧ (∃ s' inv, handle_control_change hexn
            (enable_mapping (disable_mapping s name) name) ⟨ctrl, ch, v⟩ t
            = Except.ok (s', some inv) ∧ inv.fn = m.target_function) := by
  have hdis : disable_mapping s name
      = { s with mappings := alistSet name { m with enabled := false } s.mappings } :=
    disable_mapping_eq s name m hfound
  refine ⟨?_, ?_, ?_⟩
  · intro s' inv h
    obtain ⟨n₁, m₁, hf₁, hfn₁⟩ := handle_invocation_source hexn s ⟨ctrl, ch, v⟩ t s' inv h
    obtain ⟨hmem₁, -, -, hen₁⟩ := find_enabled_mapping_mem ctrl ch s.mappings n₁ m₁ hf₁
    exact ⟨n₁, m₁, hmem₁, hen₁, hfn₁⟩
  · have hnone : find_enabled_mapping ctrl ch (disable_mapping s name).mappings = none := by
      rw [hdis]
      apply find_enabled_mapping_none
      intro p hp hcon
      rcases mem_alistSet name { m with enabled := false } s.mappings p hnd hp
          with h₁ | h₁
      · rw [h₁] at hcon
        exact Bool.false_ne_true hcon.2.2
      · exact h₁.2 (honly p h₁.1 hcon)
    exact handle_control_change_of_find_none hexn (disable_mapping s name) ⟨ctrl, ch, v⟩ t hnone
  · have hmT : ({ m with enabled := true } : MIDIMapping) = m := by
      obtain ⟨c₁, c₂, c₃, c₄, c₅, c₆, c₇, c₈, en, c₉⟩ := m
      have hen : en = true := hmatch.2.2
      rw [hen]
    have hfound₁ : alistFind name (disable_mapping s name).mappings
        = some { m with enabled := false } := by
      rw [hdis]
      exact alistFind_alistSet_self name _ s.mappings
    have hs₂ : enable_mapping (disable_mapping s name) name = s := by
      rw [enable_mapping_eq _ name { m with enabled := false } hfound₁, hdis]
      show { s with mappings := (alistSet name ({ m with enabled := true })
          (alistSet name ({ m with enabled := false }) s.mappings)) } = s
      rw [hmT, alistSet_alistSet, alistSet_of_find_eq name m s.mappings hfound]
    rw [hs₂]
    obtain ⟨⟨n₃, m₃⟩, hf₃⟩ := find_enabled_mapping_isSome ctrl ch s.mappings name m
      (mem_of_alistFind name m s.mappings hfound) hmatch
    have hm₃ := find_enabled_mapping_mem ctrl ch s.mappings n₃ m₃ hf₃
    have hn₃ : n₃ = name := honly (n₃, m₃) hm₃.1 ⟨hm₃.2.1, hm₃.2.2.1, hm₃.2.2.2⟩
    have hm₃m : m₃ = m := alistFind_unique name m₃ m s.mappings hnd
      (hn₃ ▸ hm₃.1) (mem_of_alistFind name m s.mappings hfound)
    have hthis : handle_control_change hexn s ⟨ctrl, ch, v⟩ t
        = call_control_handler hexn s m.target_function (convert_midi_value v m) t := by
      unfold handle_control_change
      rw [show (⟨ctrl, ch, v⟩ : ControlChangeMsg).control = ctrl from rfl,
        show (⟨ctrl, ch, v⟩ : ControlChangeMsg).channel = ch from rfl, hf₃]
      show call_control_handler hexn s m₃.target_function (convert_midi_value v m₃) t = _
      rw [hm₃m]
    have hcall : call_control_handler hexn s m.target_function (convert_midi_value v m) t
        = Except.ok (attempt_handler hexn s m.target_function (convert_midi_value v m) t) :=
      call_control_handler_invokes hexn s m.target_function (convert_midi_value v m) t hmem
        (fun tl htl => by rw [hlut] at htl; exact Option.noConfusion htl)
        (fun lv hlv₁ => by rw [hlv] at hlv₁; exact Option.noConfusion hlv₁)
    cases hx : hexn m.target_function (convert_midi_value v m) with
    | none =>
        refine ⟨record_dispatch s m.target_function (convert_midi_value v m) t,
          ⟨m.target_function, convert_midi_value v m, true⟩, ?_, rfl⟩
        rw [hthis, hcall]
        simp [attempt_handler, hx]
    | some e =>
        refine ⟨s, ⟨m.target_function, convert_midi_value v m, false⟩, ?_, rfl⟩
        rw [hthis, hcall]
        simp [attempt_handler, hx]

/-- Witness for C6 on the single-mapping state: the enabled-only source
property, no dispatch after disabling the zoom mapping, and dispatch again
after re-enabling it. -/
theorem disabled_mapping_never_dispatched_witness :
    (∀ s' inv, handle_control_change (fun _ _ => none) solo_state ⟨1, 0, 64⟩ 0
          = Except.ok (s', some inv) →
        ∃ n' m', (n', m') ∈ solo_state.mappings ∧ m'.enabled = true
          ∧ inv.fn = m'.target_function)
      ∧ handle_control_change (fun _ _ => none) (disable_mapping solo_state "zoom")
          ⟨1, 0, 64⟩ 0 = Except.ok (disable_mapping solo_state "zoom", none)
      ∧ (∃ s' inv, handle_control_change (fun _ _ => none)
            (enable_mapping (disable_mapping solo_state "zoom") "zoom") ⟨1, 0, 64⟩ 0
            = Except.ok (s', some inv) ∧ inv.fn = zoom_mapping.target_function) :=
  disabled_mapping_never_dispatched (fun _ _ => none) solo_state "zoom" 1 0 64 0
    zoom_mapping (by decide) rfl (by decide) (by decide) (by decide) rfl rfl

/-- Claim C9, amended: a payload that cannot be serialized to JSON (json.dumps
raises) makes the call a no-op apart from logging — no exception escapes (the
model is total), no JSON line is emitted — but the failure is logged at ERROR
level through `Logger.error`, not as a warning; only the invalid-JSON-string
path logs a warning. -/
theorem json_serialize_failure (o : PyObj) (e : String) (silent : Bool)
    (h : o.dumps = Except.error e) :
    Logger.json (.ofObj o) silent
        = Logger.error "Failed to serialize JSON" (some e) ERROR_LEVEL false
      ∧ (∀ r ∈ Logger.json (.ofObj o) silent, r.level = ERROR_LEVEL)
      ∧ ERROR_LEVEL ≠ WARNING_LEVEL := by
  have h₁ : Logger.json (.ofObj o) silent
      = Logger.error "Failed to serialize JSON" (some e) ERROR_LEVEL false := by
    show json_dump_tail o silent = _
    unfold json_dump_tail
    rw [h]
  refine ⟨h₁, ?_, by decide⟩
  intro r hr
  rw [h₁] at hr
  simp only [Logger.error, Logger.message, LOGGING, Bool.not_false, Bool.and_self,
    if_pos, List.mem_singleton] at hr
  rw [hr]

/-- Counterexample to claim C9 as stated: a non-serializable payload (dumps
raises with text boom) produces exactly one log record, at ERROR level 40,
and no record at WARNING level 30 — the claim says the failure is logged as a
warning. -/
theorem json_warning_counterexample :
    (Logger.json (.ofObj ⟨Except.error "boom"⟩) false).map LogRecord.level
        = [ERROR_LEVEL]
      ∧ (∀ r ∈ Logger.json (.ofObj ⟨Except.error "boom"⟩) false,
          r.level ≠ WARNING_LEVEL) := by
  constructor
  · rfl
  · intro r hr
    simp only [Logger.json, json_dump_tail, Logger.error, Logger.message, LOGGING,
      Bool.not_false, Bool.and_self, if_pos, List.mem_singleton] at hr
    rw [hr]
    decide

/-- Witness for the amended C9 at the concrete payload whose dumps raises with
text boom. -/
theorem json_serialize_failure_witness :
    Logger.json (.ofObj ⟨Except.error "boom"⟩) false
        = Logger.error "Failed to serialize JSON" (some "boom") ERROR_LEVEL false
      ∧ (∀ r ∈ Logger.json (.ofObj ⟨Except.error "boom"⟩) false, r.level = ERROR_LEVEL)
      ∧ ERROR_LEVEL ≠ WARNING_LEVEL :=
  json_serialize_failure ⟨Except.error "boom"⟩ "boom" false rfl

end MolMiDial
